import Mathlib

/-!
# Verification of the submission-runner pipeline (`submissions.go`)

A shallow embedding of the batch grader in `submissions.go`. Text is
modelled as `List Char` (Go strings); external effects (the filesystem,
the compiler process, the student's program) are modelled as explicit
oracles passed in as parameters, so that the control flow of the Go
functions — which is what the properties below are about — is embedded
faithfully while the OS-level behaviour stays abstract.
-/

namespace SubRunner

/-- Go's `type Status int64` with the three constants `STATUS_OK`,
`STATUS_ERR`, `STATUS_TIMEOUT`. -/
inductive Status where
  | OK
  | ERR
  | TIMEOUT
deriving DecidableEq, Repr

/-- Go's `func (s Status) String()`: the renderer used in report text. -/
def statusStr : Status → List Char
  | .OK => "OK".data
  | .ERR => "ERROR".data
  | .TIMEOUT => "TIMEOUT".data

/-- Go's `type Result struct { Status Status; out string; err string }`. -/
structure Result where
  status : Status
  out : List Char
  err : List Char
deriving DecidableEq, Repr

/-- Go's `type Submission struct { Name string; CompileResult *Result;
RunResults []*Result }`. -/
structure Submission where
  name : List Char
  compileResult : Result
  runResults : List Result
deriving DecidableEq, Repr

/-! ## String helpers (Go `strings` / `path/filepath` functions) -/

/-- Go's `strings.Split(s, sep)` for a one-character separator: splits around
every occurrence of `sep`, always returning at least one (possibly empty)
piece. -/
def splitOnChar (sep : Char) : List Char → List (List Char)
  | [] => [[]]
  | c :: rest =>
    let r := splitOnChar sep rest
    if c = sep then [] :: r
    else
      match r with
      | [] => [[c]]
      | h :: t => (c :: h) :: t

/-- Go's `strings.TrimSuffix(s, suffix)`. -/
def trimSuffix (s suffix : List Char) : List Char :=
  if suffix.isSuffixOf s then s.take (s.length - suffix.length) else s

/-- Go's `filepath.Base` for the paths the program handles: the last
`/`-separated component. -/
def baseName (p : List Char) : List Char :=
  (splitOnChar '/' p).getLastD []

/-- Go's `strings.ReplaceAll(s, "\r", "")` as used on expected-output text in
`writeReport`: every carriage return is removed. -/
def stripCR (s : List Char) : List Char :=
  s.filter (fun c => c ≠ '\r')

/-- The number of `'\n'` characters in a text. -/
def countNL (s : List Char) : Nat :=
  s.countP (fun c => decide (c = '\n'))

/-- A text with `k` newline characters has `k + 1` newline-separated
lines (the count used to speak about "a text of more than 50 lines"). -/
def lineCount (s : List Char) : Nat :=
  countNL s + 1

/-- Helper for `strings.SplitAfterN(s, "\n", n)`: the piece of `s` up to
and including the first `'\n'`, together with the remainder; `none` when
`s` has no newline. -/
def breakAfterNL : List Char → Option (List Char × List Char)
  | [] => none
  | c :: rest =>
    if c = '\n' then some ([c], rest)
    else
      match breakAfterNL rest with
      | none => none
      | some (p, q) => some (c :: p, q)

/-- Go's `strings.SplitAfterN(s, "\n", n)`: at most `n` pieces, each keeping
its trailing `'\n'`, the last piece being the unsplit remainder. -/
def splitAfterN : Nat → List Char → List (List Char)
  | 0, _ => []
  | 1, s => [s]
  | n + 2, s =>
    match breakAfterNL s with
    | none => [s]
    | some (p, q) => p :: splitAfterN (n + 1) q

/-- Go's `const VerboseNumLines = 50`. -/
def VerboseNumLines : Nat := 50

/-- The marker line `truncLines` appends in place of the cut-off tail. -/
def truncMarker : List Char :=
  "\n=========OUTPUT TRUNCATED. USE -v FOR FULL LOG PRINT=========\n".data

/-- Go's `func truncLines(output string, numLines int) string`. -/
def truncLines (output : List Char) (numLines : Nat) : List Char :=
  let ret := splitAfterN numLines output
  if numLines ≤ ret.length then
    (ret.dropLast ++ [truncMarker]).flatten
  else ret.flatten

/-- The `if !verbose { truncLines(text, VerboseNumLines) } else { text }`
pattern `writeReport` applies to every log body it writes. -/
def logText (verbose : Bool) (text : List Char) : List Char :=
  if verbose then text else truncLines text VerboseNumLines

/-! ## Staging (`makeTestDir`) and the report header identity -/

/-- Go's `func makeTestDir(path string) (dir string, class string)`, its pure
name computations: `raw := Split(TrimSuffix(Base(path), ".java"), "_")`,
the class is `Split(Join(raw[3:], ""), "-")[0]`, and the workspace
directory name is the filename stem. (For a filename with fewer than
three `_`-separated tokens the Go slice `raw[3:]` panics; the embedding
is total there, and every property below supplies at least four tokens.)
The directory creation and file copy are OS side effects outside the
embedding. -/
def makeTestDir (path : List Char) : List Char × List Char :=
  let stem := trimSuffix (baseName path) ".java".data
  let raw := splitOnChar '_' stem
  let cls := (splitOnChar '-' ((raw.drop 3).flatten)).headD []
  (stem, cls)

/-- Go's `strings.Split(sub.Name, "_")[0]`: the display identity written into
the report header (`writeReport`, the "Report For %s" line). -/
def displayIdent (name : List Char) : List Char :=
  (splitOnChar '_' name).headD []

/-! ## Process oracles: `runCompile` and `runExec`

The external `javac`/`java` processes are modelled by oracles recording
what the OS would do: whether the compiler exits successfully, whether
`os.Open` on the test input succeeds, which of the two raced events in
`runExec`'s `select` fires first, and the bytes sitting in the captured
stdout/stderr buffers at that moment. -/

/-- Behaviour of the `javac` invocation in `runCompile`. -/
structure CompileSpec where
  exitOk : Bool
  outBuf : List Char
  errBuf : List Char

/-- The event `runExec`'s `select` observes first: either the
`time.After` deadline, or `runCmd.Wait()` delivering on `done` (with
`clean = true` for a nil error, `false` for a non-zero exit or a launch
failure). -/
inductive ExecEvent where
  | deadline
  | exited (clean : Bool)
deriving DecidableEq, Repr

/-- Behaviour of one `java` run in `runExec`: whether `os.Open(in)`
succeeds, the raced event, and the captured buffers. -/
structure ProcSpec where
  openOk : Bool
  event : ExecEvent
  outBuf : List Char
  errBuf : List Char

/-- Go's `func runCompile(dir, className string) *Result`: Status is `OK` iff
`javac` exits without error, with both stream buffers retained. -/
def runCompile (c : CompileSpec) : Result :=
  { status := if c.exitOk then .OK else .ERR
    out := c.outBuf
    err := c.errBuf }

/-- Outcome of `runExec`: `res = none` models the `(nil, err)` return
when `os.Open(in)` fails; `killed` records whether
`runCmd.Process.Kill()` was called. -/
structure ExecOutcome where
  res : Option Result
  killed : Bool
deriving DecidableEq, Repr

/-- Go's `func runExec(dir, className, in string, timeoutSec int)`: open the
input (early error return on failure), race the deadline against process
exit; deadline first kills the process and marks `TIMEOUT`, exit first
marks `OK` on a clean exit and `ERR` otherwise; either way the buffers
are read afterwards. -/
def runExec (p : ProcSpec) : ExecOutcome :=
  if p.openOk = false then { res := none, killed := false }
  else
    match p.event with
    | .deadline =>
      { res := some { status := .TIMEOUT, out := p.outBuf, err := p.errBuf }
        killed := true }
    | .exited clean =>
      { res := some { status := if clean then .OK else .ERR
                      out := p.outBuf, err := p.errBuf }
        killed := false }

/-- The `Result` `runExec` produces when the input file opens. -/
def execResult (p : ProcSpec) : Result :=
  match p.event with
  | .deadline => { status := .TIMEOUT, out := p.outBuf, err := p.errBuf }
  | .exited clean =>
    { status := if clean then .OK else .ERR, out := p.outBuf, err := p.errBuf }

/-! ## `runSubmission` -/

/-- Oracles for one whole submission: the compiler's behaviour, and the
student program's behaviour on each test-input path. -/
structure SubEnv where
  compile : CompileSpec
  exec : List Char → ProcSpec

/-- The test-case loop of `runSubmission`: run each input in order,
collecting results, aborting with `(nil, err)` as soon as one `runExec`
call fails. -/
def runTests (env : SubEnv) : List (List Char) → Option (List Result)
  | [] => some []
  | f :: fs =>
    match (runExec (env.exec f)).res with
    | none => none
    | some r =>
      match runTests env fs with
      | none => none
      | some rs => some (r :: rs)

/-- What `runSubmission` leaves behind: its `(sub, err)` return value
(`sub = none` for the `(nil, err)` returns) and whether the staged
workspace directory is still on disk when it returns. `os.RemoveAll` is
modelled as succeeding; the interesting distinction is whether the code
reaches a `RemoveAll` call at all. -/
structure SubOutcome where
  sub : Option Submission
  dirOnDisk : Bool
deriving DecidableEq, Repr

/-- Go's `func runSubmission(path string, inFiles []string, timeout int)`:
stage, compile (on `STATUS_ERR` remove the workspace and return the
submission with no run results), otherwise run every test case in order
— an error from `runExec` returns `(nil, err)` immediately, before the
`os.RemoveAll(dir)` that follows the loop — then remove the workspace
and return. -/
def runSubmission (env : SubEnv) (path : List Char)
    (inFiles : List (List Char)) : SubOutcome :=
  let d := makeTestDir path
  let compileRes := runCompile env.compile
  if compileRes.status = .ERR then
    { sub := some { name := d.1, compileResult := compileRes, runResults := [] }
      dirOnDisk := false }
  else
    match runTests env inFiles with
    | none => { sub := none, dirOnDisk := true }
    | some rs =>
      { sub := some { name := d.1, compileResult := compileRes, runResults := rs }
        dirOnDisk := false }

/-! ## `writeReport`

The report writer is embedded as a pure text builder: the `diffmatchpatch`
renderer (`DiffMain` + `DiffPrettyText`) is an abstract parameter
`render`, and `os.ReadFile` is an oracle `fsys` from paths to contents.
Go's `f.WriteString` calls become list concatenation; the `(nil, err)`
early returns on a read failure or an out-of-range `outs[i]` access (a
Go panic) become `none`. -/

/-- The text `"\n\n"`, the separator `writeReport` appends after several logs. -/
def nl2 : List Char := "\n\n".data

/-- Decimal rendering of the counters interpolated with `%d`. -/
def natStr (n : Nat) : List Char := (Nat.repr n).data

/-- Counters `numErr`/`numTimeout`/`numOk`: the status counts over a submission's
run results, taken at the top of `writeReport`. -/
def countStatus (s : Status) (rs : List Result) : Nat :=
  rs.countP (fun r => decide (r.status = s))

/-- The `"\nCase %s: %s\n"` line opening each test-case section. -/
def caseLine (name : List Char) (r : Result) : List Char :=
  "\nCase ".data ++ name ++ ": ".data ++ statusStr r.status ++ "\n".data

/-- One iteration of `writeReport`'s test-case loop, as the pair of the
text it writes and whether it increments `diffCnt`: an `ERROR` result
writes the error log and continues; otherwise the rendered diff of the
CR-stripped expected text against the actual output is compared with the
expected text — equal means the `"No Diff!"` line, unequal means the
diff log plus the out log and a `diffCnt` increment. -/
def caseSection (render : List Char → List Char → List Char)
    (verbose : Bool) (name contents : List Char) (r : Result) :
    List Char × Bool :=
  let outText := stripCR contents
  if r.status = .ERR then
    (caseLine name r ++ "Error Log:\n".data ++ logText verbose r.err ++ nl2,
      false)
  else
    let diff := render outText r.out
    if diff = outText then
      (caseLine name r ++ "Diff Log: No Diff!\n\n".data, false)
    else
      (caseLine name r ++ "Diff Log:\n\n".data ++ logText verbose diff
        ++ "Out Log:\n\n".data ++ logText verbose r.out,
        true)

/-- The `for i, res := range sub.RunResults` loop: pairs the `i`-th
result with `outs[i]`, reading that file. `none` models the Go panic
when `outs` is shorter than the results (`outs[i]` out of range) and the
`return err` when `os.ReadFile` fails. -/
def writeCases (render : List Char → List Char → List Char)
    (verbose : Bool) (fsys : List Char → Option (List Char)) :
    List (List Char) → List Result → Option (List (List Char × Bool))
  | _, [] => some []
  | [], _ :: _ => none
  | name :: names, r :: rs =>
    match fsys name with
    | none => none
    | some contents =>
      match writeCases render verbose fsys names rs with
      | none => none
      | some tail =>
        some (caseSection render verbose name contents r :: tail)

/-- The report file's text together with the `diffCnt` counter the loop
accumulated (Go writes `diffCnt` into the report's closing line; the
embedding also returns it directly). -/
structure ReportData where
  text : List Char
  diffCnt : Nat
deriving DecidableEq, Repr

/-- Go's `func writeReport(repDir string, outs []string, sub *Submission,
verbose bool) error`: header naming `Split(sub.Name, "_")[0]`, the
compile-result banner, the compile error log (on `ERROR`) and out log
(when non-empty, truncated unless verbose), an early return on compile
`ERROR`; otherwise the status-count summary, every test-case section in
order, and the closing mismatch-count line. -/
def writeReport (render : List Char → List Char → List Char)
    (verbose : Bool) (fsys : List Char → Option (List Char))
    (outs : List (List Char)) (sub : Submission) : Option ReportData :=
  let header := "Report For ".data ++ displayIdent sub.name ++ nl2
  let compLine := "------------------Compile Result: ".data
    ++ statusStr sub.compileResult.status ++ "------------------\n".data
  let compErr :=
    if sub.compileResult.status = .ERR then
      "Error Log:\n".data ++ sub.compileResult.err ++ nl2
    else []
  let compOut :=
    if sub.compileResult.out ≠ [] then
      "Out Log:\n".data ++ logText verbose sub.compileResult.out ++ nl2
    else []
  if sub.compileResult.status = .ERR then
    some { text := header ++ compLine ++ compErr ++ compOut, diffCnt := 0 }
  else
    let summary := "------------------Run Results------------------\nTimeout: ".data
      ++ natStr (countStatus .TIMEOUT sub.runResults) ++ "\nError: ".data
      ++ natStr (countStatus .ERR sub.runResults) ++ "\nNo Timeout/Error: ".data
      ++ natStr (countStatus .OK sub.runResults) ++ nl2
    match writeCases render verbose fsys outs sub.runResults with
    | none => none
    | some secs =>
      let diffCnt := secs.countP (fun p => p.2)
      let body := header ++ compLine ++ compErr ++ compOut ++ summary
        ++ "Test Cases:\n".data ++ (secs.map Prod.fst).flatten
        ++ "\n\n---------------Number of mismatch test outputs: ".data
        ++ natStr diffCnt ++ "---------------\n\n".data
      some { text := body, diffCnt := diffCnt }

/-! ## Test-case discovery (`getTestNames`) and the batch driver (`run`) -/

/-- Byte-wise lexicographic order on strings, as `sort.Strings` uses. -/
def leChars : List Char → List Char → Bool
  | [], _ => true
  | _ :: _, [] => false
  | a :: as, b :: bs => if a = b then leChars as bs else decide (a < b)

/-- Insertion step of the sort modelling `sort.Strings`. -/
def insertSorted (x : List Char) : List (List Char) → List (List Char)
  | [] => [x]
  | y :: ys => if leChars x y then x :: y :: ys else y :: insertSorted x ys

/-- Go's `sort.Strings`: lexicographically ascending sort. -/
def sortStrings : List (List Char) → List (List Char)
  | [] => []
  | x :: xs => insertSorted x (sortStrings xs)

/-- The `filepath.Walk` body of `getTestNames`: each file path is
classified by `strings.Split(path, ".")[1]` — a path with no `'.'`
yields a one-element split, so the index-1 access panics and crashes the
whole program (`none`); `"in"` goes to the input list, anything else to
the output list, in walk order. -/
def classifyTests :
    List (List Char) → Option (List (List Char) × List (List Char))
  | [] => some ([], [])
  | p :: ps =>
    match (splitOnChar '.' p)[1]? with
    | none => none
    | some t =>
      match classifyTests ps with
      | none => none
      | some (ins, outs) =>
        if t = "in".data then some (p :: ins, outs)
        else some (ins, p :: outs)

/-- Go's `func getTestNames(testsDir string) (in []string, out []string)`:
classify every file path, then sort both lists. -/
def getTestNames (paths : List (List Char)) :
    Option (List (List Char) × List (List Char)) :=
  match classifyTests paths with
  | none => none
  | some (ins, outs) => some (sortStrings ins, sortStrings outs)

/-- The submission walk in `run`: `runSubmission` on each raw submission
path in order, aborting the batch when one returns `(nil, err)`. -/
def runAll (envs : List Char → SubEnv) (ins : List (List Char)) :
    List (List Char) → Option (List Submission)
  | [] => some []
  | p :: ps =>
    match (runSubmission (envs p) p ins).sub with
    | none => none
    | some sub =>
      match runAll envs ins ps with
      | none => none
      | some subs => some (sub :: subs)

/-- Go's `func run(targetDir, timeout string, verbose bool) error`: discover
and sort the test cases (a malformed test path crashes the batch before
anything else happens), run every submission, then write one report per
submission in order — `run` discards `writeReport`'s error, so a failed
report does not stop the batch. The returned list pairs each report
file's name with its data (`none` for a failed write). -/
def runBatch (render : List Char → List Char → List Char) (verbose : Bool)
    (fsys : List Char → Option (List Char)) (envs : List Char → SubEnv)
    (testPaths subPaths : List (List Char)) :
    Option (List (List Char × Option ReportData)) :=
  match getTestNames testPaths with
  | none => none
  | some (ins, outs) =>
    match runAll envs ins subPaths with
    | none => none
    | some subs =>
      some (subs.map (fun sub =>
        (sub.name ++ ".txt".data, writeReport render verbose fsys outs sub)))

/-! ## Lemmas about the execution model -/

theorem runExec_res_of_openOk (p : ProcSpec) (h : p.openOk = true) :
    (runExec p).res = some (execResult p) := by
  cases hev : p.event <;> simp [runExec, execResult, h, hev]

theorem runTests_of_openOk (env : SubEnv) :
    ∀ l : List (List Char), (∀ f ∈ l, (env.exec f).openOk = true) →
      runTests env l = some (l.map fun f => execResult (env.exec f))
  | [], _ => rfl
  | f :: fs, h => by
    have hf := h f (List.mem_cons_self f fs)
    have ih := runTests_of_openOk env fs (fun g hg => h g (List.mem_cons_of_mem f hg))
    simp [runTests, runExec_res_of_openOk _ hf, ih]

/-! ## The claims -/

/-- C4: in one `runExec`, the deadline firing before process exit kills
the process and yields a `TIMEOUT` result retaining the buffers captured
so far; the process exiting first yields `OK` on a clean exit and `ERR`
on a non-zero exit or launch failure, with no kill. -/
theorem runExec_race (p : ProcSpec) (h : p.openOk = true) :
    (p.event = .deadline →
      (runExec p).killed = true ∧
      (runExec p).res =
        some { status := .TIMEOUT, out := p.outBuf, err := p.errBuf })
  ∧ (∀ clean, p.event = .exited clean →
      (runExec p).killed = false ∧
      (runExec p).res =
        some { status := if clean then Status.OK else Status.ERR
               out := p.outBuf, err := p.errBuf }) := by
  constructor
  · intro hev; simp [runExec, h, hev]
  · intro clean hev; simp [runExec, h, hev]

def raceProc : ProcSpec :=
  { openOk := true, event := .deadline, outBuf := "partial out".data, errBuf := [] }

theorem runExec_race_witness :
    (runExec raceProc).killed = true ∧
    (runExec raceProc).res =
      some { status := .TIMEOUT, out := "partial out".data, err := [] } :=
  (runExec_race raceProc rfl).1 rfl

/-- C1, amended: the workspace is removed before `runSubmission` returns
on compile failure and whenever every test execution completes (whatever
each test's status); but when `runExec` itself fails — its test-input
file cannot be opened — `runSubmission` returns `(nil, err)` without
removing the workspace. -/
theorem runSubmission_workspace_cleanup (env : SubEnv) (path : List Char)
    (inFiles : List (List Char)) :
    ((runCompile env.compile).status = .ERR →
        (runSubmission env path inFiles).dirOnDisk = false)
  ∧ ((∀ f ∈ inFiles, (env.exec f).openOk = true) →
        (runSubmission env path inFiles).dirOnDisk = false)
  ∧ ((runCompile env.compile).status ≠ .ERR → runTests env inFiles = none →
        (runSubmission env path inFiles).dirOnDisk = true) := by
  refine ⟨fun hc => ?_, fun hopen => ?_, fun hc hnone => ?_⟩
  · simp [runSubmission, hc]
  · by_cases hc : (runCompile env.compile).status = .ERR
    · simp [runSubmission, hc]
    · simp [runSubmission, hc, runTests_of_openOk env inFiles hopen]
  · simp [runSubmission, hc, hnone]

def cleanEnv : SubEnv :=
  { compile := { exitOk := true, outBuf := [], errBuf := [] }
    exec := fun _ =>
      { openOk := true, event := .exited true, outBuf := "out".data, errBuf := [] } }

theorem runSubmission_workspace_cleanup_witness :
    (runSubmission cleanEnv "jdoe_1000_01_MyClass-2.java".data
      ["case1.in".data]).dirOnDisk = false :=
  (runSubmission_workspace_cleanup cleanEnv _ _).2.1 (fun _ _ => rfl)

def leakEnv : SubEnv :=
  { compile := { exitOk := true, outBuf := [], errBuf := [] }
    exec := fun _ =>
      { openOk := false, event := .exited true, outBuf := [], errBuf := [] } }

/-- C1 counterexample: with a successful compile and a test input that
cannot be opened, `runSubmission` returns with the workspace still on
disk — refuting "no execution path returns with the workspace still on
disk". -/
theorem runSubmission_workspace_leak :
    (runSubmission leakEnv "jdoe_1000_01_MyClass-2.java".data
      ["case1.in".data]).dirOnDisk = true := by decide

/-- C2: a submission returned by `runSubmission` has one run result per
test input, in input order, when compilation succeeded (each the outcome
of running that input), and an empty result list when compilation failed
— in which case the outcome is the same under any execution oracle, i.e.
no test is executed. -/
theorem runSubmission_results_shape (env : SubEnv) (path : List Char)
    (inFiles : List (List Char)) :
    ((runCompile env.compile).status = .ERR →
        (∃ sub, (runSubmission env path inFiles).sub = some sub
            ∧ sub.runResults = [])
        ∧ ∀ env' : SubEnv, env'.compile = env.compile →
            runSubmission env' path inFiles = runSubmission env path inFiles)
  ∧ ((runCompile env.compile).status ≠ .ERR →
      (∀ f ∈ inFiles, (env.exec f).openOk = true) →
        ∃ sub, (runSubmission env path inFiles).sub = some sub
          ∧ sub.runResults = inFiles.map (fun f => execResult (env.exec f))) := by
  constructor
  · intro hc
    constructor
    · refine ⟨Submission.mk (makeTestDir path).1 (runCompile env.compile) [],
          ?_, rfl⟩
      simp [runSubmission, hc]
    · intro env' hcomp
      simp [runSubmission, hcomp, hc]
  · intro hc hopen
    refine ⟨Submission.mk (makeTestDir path).1 (runCompile env.compile)
        (inFiles.map (fun f => execResult (env.exec f))), ?_, rfl⟩
    simp [runSubmission, hc, runTests_of_openOk env inFiles hopen]

theorem runSubmission_results_shape_witness :
    ∃ sub, (runSubmission cleanEnv "jdoe_1000_01_MyClass-2.java".data
        ["a.in".data, "b.in".data]).sub = some sub
      ∧ sub.runResults =
          (["a.in".data, "b.in".data] : List (List Char)).map
            (fun f => execResult (cleanEnv.exec f)) :=
  (runSubmission_results_shape cleanEnv _ _).2 (by decide) (fun _ _ => rfl)

/-! ## Lemmas about the string helpers -/

theorem splitOnChar_ne_nil (sep : Char) : ∀ l : List Char, splitOnChar sep l ≠ []
  | [] => by simp [splitOnChar]
  | c :: rest => by
    simp only [splitOnChar]
    by_cases hc : c = sep
    · simp [hc]
    · simp only [if_neg hc]
      cases hr : splitOnChar sep rest <;> simp

theorem splitOnChar_of_not_mem (sep : Char) :
    ∀ l : List Char, sep ∉ l → splitOnChar sep l = [l]
  | [], _ => rfl
  | c :: rest, h => by
    have hc : ¬ c = sep := fun e => h (e ▸ List.mem_cons_self c rest)
    have hr := splitOnChar_of_not_mem sep rest (fun m => h (List.mem_cons_of_mem c m))
    simp [splitOnChar, hc, hr]

theorem headD_splitOnChar (sep : Char) : ∀ l : List Char,
    (splitOnChar sep l).headD [] = l.takeWhile (fun c => c ≠ sep)
  | [] => rfl
  | c :: rest => by
    by_cases hc : c = sep
    · simp [splitOnChar, hc]
    · have ih := headD_splitOnChar sep rest
      cases hr : splitOnChar sep rest with
      | nil => exact absurd hr (splitOnChar_ne_nil sep rest)
      | cons x xs =>
        rw [hr] at ih
        simp only [List.headD_cons] at ih
        simp [splitOnChar, hc, hr, List.takeWhile_cons, ih]

/-- Inverse of `splitOnChar`: tokens joined with a single separator
character (used to describe inputs to `makeTestDir`). -/
def joinSep (sep : Char) : List (List Char) → List Char
  | [] => []
  | [t] => t
  | t :: ts => t ++ sep :: joinSep sep ts

theorem mem_joinSep {sep c : Char} : ∀ {ts : List (List Char)},
    c ∈ joinSep sep ts → c = sep ∨ ∃ t ∈ ts, c ∈ t
  | [], h => by simp [joinSep] at h
  | [t], h => by
    simp only [joinSep] at h
    exact Or.inr ⟨t, List.mem_singleton.mpr rfl, h⟩
  | t :: t' :: ts, h => by
    simp only [joinSep, List.mem_append, List.mem_cons] at h
    rcases h with h | h | h
    · exact Or.inr ⟨t, List.mem_cons_self t _, h⟩
    · exact Or.inl h
    · rcases mem_joinSep h with h | ⟨u, hu, hc⟩
      · exact Or.inl h
      · exact Or.inr ⟨u, List.mem_cons_of_mem t hu, hc⟩

theorem splitOnChar_append_sep (sep : Char) :
    ∀ (t rest : List Char), sep ∉ t →
      splitOnChar sep (t ++ sep :: rest) = t :: splitOnChar sep rest
  | [], rest, _ => by simp [splitOnChar]
  | c :: t', rest, h => by
    have hc : ¬ c = sep := fun e => h (e ▸ List.mem_cons_self c t')
    have ih := splitOnChar_append_sep sep t' rest (fun m => h (List.mem_cons_of_mem c m))
    simp [splitOnChar, hc, ih]

theorem splitOnChar_joinSep (sep : Char) : ∀ ts : List (List Char),
    ts ≠ [] → (∀ t ∈ ts, sep ∉ t) →
    splitOnChar sep (joinSep sep ts) = ts
  | [], hne, _ => absurd rfl hne
  | [t], _, h => by
    simpa [joinSep] using splitOnChar_of_not_mem sep t (h t (List.mem_singleton.mpr rfl))
  | t :: t' :: ts, _, h => by
    have ih := splitOnChar_joinSep sep (t' :: ts) (by simp)
      (fun u hu => h u (List.mem_cons_of_mem t hu))
    have hj : joinSep sep (t :: t' :: ts) = t ++ sep :: joinSep sep (t' :: ts) := rfl
    rw [hj, splitOnChar_append_sep sep t _ (h t (List.mem_cons_self t _)), ih]

theorem trimSuffix_append (x s : List Char) : trimSuffix (x ++ s) s = x := by
  have hsuf : s.isSuffixOf (x ++ s) := by
    rw [List.isSuffixOf_iff_suffix]; exact List.suffix_append x s
  simp [trimSuffix, hsuf, List.length_append, List.take_left]

theorem baseName_of_not_mem (p : List Char) (h : '/' ∉ p) : baseName p = p := by
  simp [baseName, splitOnChar_of_not_mem '/' p h]

/-- C5: staging the raw filename `jdoe_1000_01_MyClass-2.java` derives
the class name `MyClass`, and the display identity written into that
submission's report header (everything before the first `_` of the
workspace name) is `jdoe`. -/
theorem makeTestDir_jdoe_example :
    (makeTestDir "jdoe_1000_01_MyClass-2.java".data).2 = "MyClass".data
  ∧ displayIdent (makeTestDir "jdoe_1000_01_MyClass-2.java".data).1 = "jdoe".data := by
  decide

/-- C10: for a raw filename whose stem is underscore-joined tokens with
more than one token left after the three discarded metadata tokens,
`makeTestDir` derives the class name by concatenating the remaining
tokens with no separator and truncating at the first `'-'`. -/
theorem makeTestDir_class_concat (toks : List (List Char))
    (hlen : 4 < toks.length)
    (hchars : ∀ t ∈ toks, '_' ∉ t ∧ '/' ∉ t) :
    (makeTestDir (joinSep '_' toks ++ ".java".data)).2
      = ((toks.drop 3).flatten).takeWhile (fun c => c ≠ '-') := by
  have hne : toks ≠ [] := by
    intro h; rw [h] at hlen; simp at hlen
  have hbase : baseName (joinSep '_' toks ++ ".java".data)
      = joinSep '_' toks ++ ".java".data := by
    apply baseName_of_not_mem
    intro hmem
    rcases List.mem_append.mp hmem with h1 | h2
    · rcases mem_joinSep h1 with h | ⟨t, ht, hc⟩
      · exact absurd h (by decide)
      · exact (hchars t ht).2 hc
    · revert h2; decide
  have hsplit : makeTestDir (joinSep '_' toks ++ ".java".data)
      = (joinSep '_' toks,
          (splitOnChar '-' ((toks.drop 3).flatten)).headD []) := by
    unfold makeTestDir
    rw [hbase, trimSuffix_append]
    simp only [splitOnChar_joinSep '_' toks hne (fun t ht => (hchars t ht).1)]
  rw [hsplit]
  exact headD_splitOnChar '-' _

theorem makeTestDir_class_concat_witness :
    (makeTestDir (joinSep '_'
        ["jdoe".data, "1000".data, "01".data, "My".data, "Class-2".data]
      ++ ".java".data)).2
      = (((["jdoe".data, "1000".data, "01".data, "My".data, "Class-2".data] :
            List (List Char)).drop 3).flatten).takeWhile (fun c => c ≠ '-') :=
  makeTestDir_class_concat _ (by decide) (by decide)

/-! ## Lemmas about `truncLines` -/

theorem countNL_of_breakAfterNL_none : ∀ {s : List Char},
    breakAfterNL s = none → countNL s = 0
  | [], _ => rfl
  | c :: rest, h => by
    by_cases hc : c = '\n'
    · simp [breakAfterNL, hc] at h
    · simp only [breakAfterNL, if_neg hc] at h
      cases hbr : breakAfterNL rest with
      | none =>
        have ih := countNL_of_breakAfterNL_none hbr
        simp only [countNL, List.countP_cons] at ih ⊢
        simp [hc, ih]
      | some pq => rw [hbr] at h; simp at h
  termination_by s => s.length

theorem countNL_of_breakAfterNL_some : ∀ {s p q : List Char},
    breakAfterNL s = some (p, q) → countNL s = countNL q + 1
  | [], _, _, h => by simp [breakAfterNL] at h
  | c :: rest, p, q, h => by
    by_cases hc : c = '\n'
    · simp only [breakAfterNL, if_pos hc] at h
      obtain ⟨_, rfl⟩ := Prod.mk.injEq _ _ _ _ ▸ Option.some.inj h
      simp [countNL, List.countP_cons, hc]
    · simp only [breakAfterNL, if_neg hc] at h
      cases hbr : breakAfterNL rest with
      | none => rw [hbr] at h; simp at h
      | some pq =>
        obtain ⟨p', q'⟩ := pq
        rw [hbr] at h
        simp only [Option.some.injEq, Prod.mk.injEq] at h
        obtain ⟨-, rfl⟩ := h
        have ih := countNL_of_breakAfterNL_some hbr
        simp only [countNL, List.countP_cons] at ih ⊢
        simp [hc]
        omega
  termination_by s => s.length

theorem splitAfterN_length : ∀ (n : Nat) (s : List Char),
    (splitAfterN (n + 1) s).length = min (n + 1) (countNL s + 1)
  | 0, s => by
    simp [splitAfterN]
  | n + 1, s => by
    cases hbr : breakAfterNL s with
    | none =>
      have h0 := countNL_of_breakAfterNL_none hbr
      simp [splitAfterN, hbr, h0]
    | some pq =>
      obtain ⟨p, q⟩ := pq
      have hq := countNL_of_breakAfterNL_some hbr
      have ih := splitAfterN_length n q
      simp only [splitAfterN, hbr, List.length_cons, ih, hq]
      omega

/-- A `Submission` with a failed compile whose captured error log has 61
lines — well past the 50-line threshold. -/
def longErrSub : Submission :=
  { name := "jdoe_1000_01_MyClass".data
    compileResult := { status := .ERR, out := [], err := List.replicate 60 '\n' }
    runResults := [] }

set_option maxRecDepth 4000 in
/-- C6 counterexample: the compile-failure error log is written into the
report raw — `f.WriteString(sub.CompileResult.err + "\n\n")` has no
verbose check and no `truncLines` call — so in non-verbose mode this
61-line log text appears in the report untruncated and the truncation
marker appears nowhere in the report, refuting the claim for "every log
text written into a report". -/
theorem writeReport_compile_errlog_raw :
    50 < lineCount longErrSub.compileResult.err
  ∧ ∃ rep, writeReport (fun _ actual => actual) false (fun _ => none) []
        longErrSub = some rep
      ∧ rep.text
          = "Report For jdoe\n\n------------------Compile Result: ERROR------------------\n".data
            ++ ("Error Log:\n".data ++ List.replicate 60 '\n' ++ nl2)
      ∧ ¬ truncMarker <:+: rep.text := by
  refine ⟨by decide, ⟨_, rfl, ?_, ?_⟩⟩
  · decide
  · decide

/-- C6, amended: every log body the report writes through the truncation
wrapper `logText` — the compile out log and the per-case error, diff and
out logs — is passed through byte-for-byte in verbose mode and, in
non-verbose mode, cut down to its first 49 newline-terminated pieces
with the truncation marker line appended once it exceeds 50 lines
(`VerboseNumLines`); the compile-failure error log alone bypasses the
wrapper and is written into the report raw in both modes. -/
theorem report_log_truncation (text : List Char) :
    logText true text = text
  ∧ (50 < lineCount text →
      logText false text
          = ((splitAfterN VerboseNumLines text).dropLast).flatten ++ truncMarker
        ∧ truncMarker <:+ logText false text)
  ∧ ∀ (render : List Char → List Char → List Char) (verbose : Bool)
      (fsys : List Char → Option (List Char)) (outs : List (List Char))
      (sub : Submission), sub.compileResult.status = .ERR →
      writeReport render verbose fsys outs sub = some (ReportData.mk
        ("Report For ".data ++ displayIdent sub.name ++ nl2
          ++ "------------------Compile Result: ".data ++ statusStr .ERR
          ++ "------------------\n".data
          ++ ("Error Log:\n".data ++ sub.compileResult.err ++ nl2)
          ++ (if sub.compileResult.out ≠ [] then
                "Out Log:\n".data ++ logText verbose sub.compileResult.out ++ nl2
              else []))
        0) := by
  refine ⟨rfl, fun h => ?_, ?_⟩
  · have hcnt : 50 ≤ countNL text := by
      simp only [lineCount] at h; omega
    have hlen : (splitAfterN VerboseNumLines text).length = 50 := by
      have h49 := splitAfterN_length 49 text
      norm_num at h49
      simp only [VerboseNumLines]
      omega
    have heq : logText false text
        = ((splitAfterN VerboseNumLines text).dropLast).flatten ++ truncMarker := by
      have hcond : VerboseNumLines ≤ (splitAfterN VerboseNumLines text).length := by
        rw [hlen]; norm_num [VerboseNumLines]
      simp only [logText, truncLines, if_neg Bool.false_ne_true]
      rw [if_pos hcond]
      simp [List.flatten_append]
    exact ⟨heq, heq ▸ List.suffix_append _ _⟩
  · intro render verbose fsys outs sub hsub
    simp [writeReport, hsub, List.append_assoc]

theorem report_log_truncation_witness :
    (logText false (List.replicate 50 '\n')
        = ((splitAfterN VerboseNumLines (List.replicate 50 '\n')).dropLast).flatten
          ++ truncMarker
      ∧ truncMarker <:+ logText false (List.replicate 50 '\n'))
  ∧ writeReport (fun _ actual => actual) true (fun _ => none) [] longErrSub
      = some (ReportData.mk
          ("Report For ".data ++ displayIdent longErrSub.name ++ nl2
            ++ "------------------Compile Result: ".data ++ statusStr .ERR
            ++ "------------------\n".data
            ++ ("Error Log:\n".data ++ longErrSub.compileResult.err ++ nl2)
            ++ (if longErrSub.compileResult.out ≠ [] then
                  "Out Log:\n".data ++ logText true longErrSub.compileResult.out ++ nl2
                else []))
          0) :=
  ⟨(report_log_truncation (List.replicate 50 '\n')).2.1 (by decide),
   (report_log_truncation []).2.2 (fun _ actual => actual) true (fun _ => none) []
     longErrSub rfl⟩

/-! ## Fatal discovery errors -/

theorem classifyTests_none : ∀ {paths : List (List Char)} {p : List Char},
    p ∈ paths → '.' ∉ p → classifyTests paths = none
  | q :: ps, p, hmem, hnd => by
    rcases List.mem_cons.mp hmem with rfl | hmem'
    · have hs : splitOnChar '.' p = [p] := splitOnChar_of_not_mem '.' p hnd
      simp [classifyTests, hs]
    · cases hq : (splitOnChar '.' q)[1]? with
      | none => simp [classifyTests, hq]
      | some t =>
        have ih := classifyTests_none hmem' hnd
        simp [classifyTests, hq, ih]

/-- C7: a test-file path containing no extension-delimiting `'.'` is
fatal during discovery — `strings.Split(path, ".")[1]` in `getTestNames`
is out of range, the whole batch aborts, and no report set is produced. -/
theorem runBatch_aborts_without_dot
    (render : List Char → List Char → List Char) (verbose : Bool)
    (fsys : List Char → Option (List Char)) (envs : List Char → SubEnv)
    (testPaths subPaths : List (List Char)) (p : List Char)
    (hmem : p ∈ testPaths) (hnodot : '.' ∉ p) :
    runBatch render verbose fsys envs testPaths subPaths = none := by
  simp [runBatch, getTestNames, classifyTests_none hmem hnodot]

def plainEnv : SubEnv :=
  { compile := { exitOk := false, outBuf := [], errBuf := [] }
    exec := fun _ =>
      { openOk := true, event := .exited true, outBuf := [], errBuf := [] } }

theorem runBatch_aborts_without_dot_witness :
    runBatch (fun _ actual => actual) false (fun _ => none) (fun _ => plainEnv)
      ["testcases/nodot".data] ["jdoe_1000_01_MyClass.java".data] = none :=
  runBatch_aborts_without_dot _ _ _ _ _ _ "testcases/nodot".data
    (by decide) (by decide)

/-! ## Lemmas about the report writer -/

theorem caseSection_flag (render : List Char → List Char → List Char)
    (verbose : Bool) (name contents : List Char) (r : Result) :
    (caseSection render verbose name contents r).2
      = decide (r.status ≠ .ERR
          ∧ render (stripCR contents) r.out ≠ stripCR contents) := by
  by_cases h : r.status = .ERR
  · simp [caseSection, h]
  · by_cases hd : render (stripCR contents) r.out = stripCR contents
    · simp [caseSection, h, hd]
    · simp [caseSection, h, hd]

theorem writeCases_total (render : List Char → List Char → List Char)
    (verbose : Bool) (F : List Char → List Char) :
    ∀ (names : List (List Char)) (rs : List Result), rs.length ≤ names.length →
      writeCases render verbose (fun n => some (F n)) names rs
        = some (List.zipWith
            (fun name r => caseSection render verbose name (F name) r) names rs)
  | names, [], _ => by cases names <;> simp [writeCases]
  | name :: names, r :: rs, h => by
    have ih := writeCases_total render verbose F names rs (Nat.le_of_succ_le_succ h)
    simp [writeCases, ih]
  | [], _ :: _, h => by simp at h

theorem zipWith_eq_map_zip {α β γ : Type} (f : α → β → γ) :
    ∀ (as : List α) (bs : List β),
      List.zipWith f as bs = (as.zip bs).map (fun p => f p.1 p.2)
  | [], bs => by cases bs <;> rfl
  | _ :: _, [] => rfl
  | a :: as, b :: bs => by
    simp [List.zip_cons_cons, zipWith_eq_map_zip f as bs]

/-- C9: a test case whose `Result` status is `ERROR` gets its captured
error log written and the diff computation skipped entirely — the
section is identical under any diff renderer — and its mismatch flag is
`false`, so it never contributes to `writeReport`'s mismatch count,
whatever output it produced. -/
theorem caseSection_error_skips_diff
    (render render' : List Char → List Char → List Char) (verbose : Bool)
    (name contents : List Char) (r : Result) (h : r.status = .ERR) :
    caseSection render verbose name contents r
        = (caseLine name r ++ "Error Log:\n".data ++ logText verbose r.err ++ nl2,
            false)
      ∧ caseSection render verbose name contents r
        = caseSection render' verbose name contents r := by
  constructor <;> simp [caseSection, h]

def errResult : Result :=
  { status := .ERR, out := "irrelevant output".data, err := "Exception\n".data }

theorem caseSection_error_skips_diff_witness :
    caseSection (fun _ _ => []) true "t1.out".data "expected\n".data errResult
        = (caseLine "t1.out".data errResult ++ "Error Log:\n".data
            ++ logText true "Exception\n".data ++ nl2, false)
      ∧ caseSection (fun _ _ => []) true "t1.out".data "expected\n".data errResult
        = caseSection (fun e a => e ++ a) true "t1.out".data "expected\n".data
            errResult :=
  caseSection_error_skips_diff _ _ true _ _ errResult rfl

/-- C3: with compilation succeeded, `writeReport`'s mismatch count is
exactly the number of test-case pairs whose result is not `ERROR` and
whose rendered diff — `render` applied to the CR-stripped expected file
text and the actual output — differs from that stripped expected text;
and a non-`ERROR` case's section is the "No Diff!" line iff the rendered
diff is byte-identical to the stripped expected text, the diff rendering
being written (through the log wrapper) otherwise. -/
theorem writeReport_diff_classification
    (render : List Char → List Char → List Char) (verbose : Bool)
    (F : List Char → List Char) (outs : List (List Char)) (sub : Submission)
    (hok : sub.compileResult.status ≠ .ERR)
    (hlen : sub.runResults.length ≤ outs.length) :
    (∃ rep, writeReport render verbose (fun n => some (F n)) outs sub = some rep
      ∧ rep.diffCnt = (outs.zip sub.runResults).countP (fun p =>
          decide (p.2.status ≠ .ERR
            ∧ render (stripCR (F p.1)) p.2.out ≠ stripCR (F p.1))))
  ∧ ∀ name r, r.status ≠ .ERR →
      ((caseSection render verbose name (F name) r
          = (caseLine name r ++ "Diff Log: No Diff!\n\n".data, false))
        ↔ render (stripCR (F name)) r.out = stripCR (F name))
      ∧ (render (stripCR (F name)) r.out ≠ stripCR (F name) →
          caseSection render verbose name (F name) r
            = (caseLine name r ++ "Diff Log:\n\n".data
                ++ logText verbose (render (stripCR (F name)) r.out)
                ++ "Out Log:\n\n".data ++ logText verbose r.out, true)) := by
  constructor
  · have hwc := writeCases_total render verbose F outs sub.runResults hlen
    simp only [writeReport, if_neg hok, hwc]
    refine ⟨_, rfl, ?_⟩
    rw [zipWith_eq_map_zip, List.countP_map]
    apply List.countP_congr
    intro p _
    simp only [Function.comp_apply, caseSection_flag]
  · intro name r hr
    refine ⟨⟨fun he => ?_, fun hd => by simp [caseSection, hr, hd]⟩,
      fun hd => by simp [caseSection, hr, hd]⟩
    have hflag : (caseSection render verbose name (F name) r).2 = false := by
      rw [he]
    rw [caseSection_flag] at hflag
    have hnot := of_decide_eq_false hflag
    by_contra hd
    exact hnot ⟨hr, hd⟩

def identityRender : List Char → List Char → List Char := fun _ actual => actual

def constExp : List Char → List Char := fun _ => "exp\n".data

def oneOut : List (List Char) := ["a.out".data]

def mismatchSub : Submission :=
  { name := "jdoe_1000_01_MyClass".data
    compileResult := { status := .OK, out := [], err := [] }
    runResults := [{ status := .OK, out := "wrong\n".data, err := [] }] }

theorem writeReport_diff_classification_witness :
    ∃ rep, writeReport identityRender false (fun n => some (constExp n))
        oneOut mismatchSub = some rep
      ∧ rep.diffCnt = (oneOut.zip mismatchSub.runResults).countP (fun p =>
          decide (p.2.status ≠ .ERR
            ∧ identityRender (stripCR (constExp p.1)) p.2.out
              ≠ stripCR (constExp p.1))) :=
  (writeReport_diff_classification identityRender false constExp oneOut
    mismatchSub (by decide) (by decide)).1

end SubRunner
